import Mathlib

/-!
Verification development for the `web_crawler` repository.

The crawler core (`crawlWebsite`, `isExternalOrSocialMediaLink`,
`extractCleanContent`, `getAllTextNodes`, `filterCodeLikeContent`) and the
archiver (`createZipArchive`) are shallowly embedded below.  Network I/O,
URL parsing and the HTML parser (JSDOM) are external collaborators and are
modelled as oracle functions carried in a `Net` structure; the filesystem is
modelled by collecting the written files in the crawl state.  JavaScript
strings are modelled by Lean `String` (code points instead of UTF-16 units;
identical on the ASCII inputs used here), and the JS regex `\s` class by the
ASCII whitespace characters.
-/

namespace WebCrawler

/-- JS `\s` for the ASCII range: space, tab, newline, carriage return,
vertical tab, form feed. -/
def jsWS (c : Char) : Bool :=
  c == ' ' || c == '\t' || c == '\n' || c == '\r' || c == '\x0b' || c == '\x0c'

/-- Does `hay` start with `needle` (char-list level)? -/
def listStarts : List Char → List Char → Bool
  | [], _ => true
  | _ :: _, [] => false
  | a :: as, b :: bs => a == b && listStarts as bs

/-- Does `hay` contain `needle` as a contiguous sublist? -/
def listHas (needle hay : List Char) : Bool :=
  match hay with
  | [] => needle.isEmpty
  | _ :: rest => listStarts needle hay || listHas needle rest

/-- JS `hay.includes(needle)`. -/
def strIncludes (hay needle : String) : Bool :=
  listHas needle.data hay.data

/-- JS `s.startsWith(t)`. -/
def strStarts (s t : String) : Bool :=
  listStarts t.data s.data

/-- JS `s.endsWith(t)`. -/
def strEnds (s t : String) : Bool :=
  listStarts t.data.reverse s.data.reverse

/-- JS `s.trim()` (over the `\s` model above). -/
def jsTrim (s : String) : String :=
  String.mk (((s.data.dropWhile jsWS).reverse.dropWhile jsWS).reverse)

/-- `toUpperCase` (ASCII). -/
def strUpper (s : String) : String :=
  String.mk (s.data.map Char.toUpper)

/-- `toLowerCase` (ASCII). -/
def strLower (s : String) : String :=
  String.mk (s.data.map Char.toLower)

/-- JS `s.split(sep)` for a one-character separator. -/
def splitOnChar (sep : Char) : List Char → List (List Char)
  | [] => [[]]
  | c :: rest =>
    let r := splitOnChar sep rest
    if c == sep then [] :: r
    else
      match r with
      | [] => [[c]]
      | h :: t => (c :: h) :: t

/-- Split on every character satisfying `p` (the `String.split`-style
separator predicate used for class lists). -/
def splitByPred (p : Char → Bool) : List Char → List (List Char)
  | [] => [[]]
  | c :: rest =>
    let r := splitByPred p rest
    if p c then [] :: r
    else
      match r with
      | [] => [[c]]
      | h :: t => (c :: h) :: t

/-- Number of characters of `t` satisfying `p`. -/
def countChars (t : String) (p : Char → Bool) : Nat :=
  (t.data.filter p).length

/-- The fixed social-media / link-shortener denylist of
`isExternalOrSocialMediaLink` (source order preserved). -/
def socialMediaDomains : List String :=
  [ "facebook.com", "twitter.com", "instagram.com", "linkedin.com",
    "youtube.com", "pinterest.com", "tiktok.com", "reddit.com",
    "tumblr.com", "snapchat.com", "whatsapp.com", "telegram.org",
    "discord.com", "medium.com", "t.co", "fb.me", "youtu.be",
    "bit.ly", "goo.gl", "tinyurl.com", "ow.ly", "is.gd" ]

/-- `isExternalOrSocialMediaLink(hostname, baseDomain)`: true when the
hostname matches (or suffix-matches) a denylisted social domain, or when it
is neither the base domain nor one of its `.`-subdomains. -/
def isExternalOrSocialMediaLink (hostname baseDomain : String) : Bool :=
  if socialMediaDomains.any (fun sd => strEnds hostname sd || hostname == sd) then
    true
  else if hostname != baseDomain && !strEnds hostname ("." ++ baseDomain) then
    true
  else
    false

/-- The in-scope host predicate of the enqueue guard: not external/social,
and equal to the base domain or a true `.`-subdomain of it. -/
def inScopeHost (hostname baseDomain : String) : Bool :=
  !isExternalOrSocialMediaLink hostname baseDomain &&
    (hostname == baseDomain || strEnds hostname ("." ++ baseDomain))

/-! ### The code-likeness filter (`filterCodeLikeContent`) -/

/-- Characters of the JS regex class `[{}[\]"':]`. -/
def jsonishChars : List Char :=
  ['\x7b', '\x7d', '[', ']', '\"', '\'', ':']

/-- JS `\w` (no unicode flag): ASCII letters, digits, underscore. -/
def jsWordChar (c : Char) : Bool :=
  ('a' ≤ c && c ≤ 'z') || ('A' ≤ c && c ≤ 'Z') || ('0' ≤ c && c ≤ '9') || c == '_'

/-- One disjunct per code-like signal of `filterCodeLikeContent`; `trimmed`
is the trimmed line.  The 30% ratio test `count > length * 0.3` is modelled
exactly over the rationals as `10 * count > 3 * length`. -/
def isCodeLikeLine (trimmed : String) : Bool :=
  strIncludes trimmed "function(" ||
  strIncludes trimmed "() =>" ||
  strIncludes trimmed "var " ||
  strIncludes trimmed "const " ||
  strIncludes trimmed "let " ||
  strIncludes trimmed "self.__next" ||
  strIncludes trimmed "window." ||
  strIncludes trimmed "document." ||
  strIncludes trimmed "$." ||
  strIncludes trimmed "jQuery" ||
  countChars trimmed (fun c => jsonishChars.contains c) > 3 ||
  strIncludes trimmed "/static/" ||
  strIncludes trimmed "/_next/" ||
  strIncludes trimmed ".js" ||
  strIncludes trimmed ".css" ||
  strIncludes trimmed "<div" ||
  strIncludes trimmed "<span" ||
  strIncludes trimmed "<script" ||
  strIncludes trimmed "<style" ||
  strIncludes trimmed "===" ||
  strIncludes trimmed "!==" ||
  strIncludes trimmed "++" ||
  strIncludes trimmed "--" ||
  (trimmed.length > 100 && !strIncludes trimmed " ") ||
  10 * countChars trimmed (fun c => !(jsWordChar c || jsWS c)) > 3 * trimmed.length

/-- The line predicate of `filterCodeLikeContent`'s `filter` callback:
keep a line iff its trim is non-empty and not code-like. -/
def keepLine (line : String) : Bool :=
  let trimmed := jsTrim line
  if trimmed.length == 0 then false
  else if isCodeLikeLine trimmed then false
  else true

/-- After an opening brace, scan for a closing brace with no further opening
brace before it; return the remainder after the close when found (the JS
regex fragment `[^{}]*\x7d` after a `\x7b`). -/
def scanToClose : List Char → Option (List Char)
  | [] => none
  | c :: rest =>
    if c == '\x7d' then some rest
    else if c == '\x7b' then none
    else scanToClose rest

/-- Fuelled scanner for the brace replacement; `scanToClose` only ever
shortens the list, so fuel equal to the list length always suffices. -/
def stripBracesFuel : Nat → List Char → List Char
  | _, [] => []
  | 0, l => l
  | n + 1, c :: rest =>
    if c == '\x7b' then
      match scanToClose rest with
      | some after => stripBracesFuel n after
      | none => c :: stripBracesFuel n rest
    else
      c :: stripBracesFuel n rest

/-- JS `result.replace(/\{[^{}]*\}/g, "")`: drop each non-nested
brace-delimited group. -/
def stripBracesList (l : List Char) : List Char :=
  stripBracesFuel l.length l

/-- JS `result.replace(/\s{3,}/g, "\n\n")`: pending whitespace run `pend`
(reversed) is flushed as-is when shorter than 3, as a double newline
otherwise. -/
def flushWS (pend : List Char) : List Char :=
  if pend.length ≥ 3 then ['\n', '\n'] else pend.reverse

/-- Collapse runs of 3+ whitespace characters into a double newline. -/
def collapseWSAux : List Char → List Char → List Char
  | pend, [] => flushWS pend
  | pend, c :: rest =>
    if jsWS c then collapseWSAux (c :: pend) rest
    else flushWS pend ++ c :: collapseWSAux [] rest

/-- `filterCodeLikeContent(text)`: split into lines, drop empty and
code-like lines, rejoin, strip `\x7b...\x7d` groups, collapse long
whitespace runs. -/
def filterCodeLikeContent (text : String) : String :=
  let lines := (splitOnChar '\n' text.data).map String.mk
  let filteredLines := lines.filter keepLine
  let result := String.intercalate "\n" filteredLines
  let result := String.mk (stripBracesList result.data)
  String.mk (collapseWSAux [] result.data)

/-! ### DOM model and `extractCleanContent` -/

/-- A parsed DOM node: an element with tag, attributes and children, or a
text node.  Tags are stored as written (lowercase in the documents built
here); selector matching lowercases, `tagName` uppercases, as in HTML DOM. -/
inductive DNode where
  | elem (tag : String) (attrs : List (String × String)) (children : List DNode)
  | text (s : String)
deriving Repr

/-- First value of attribute `name`, if present. -/
def getAttr (attrs : List (String × String)) (name : String) : Option String :=
  match attrs.find? (fun p => p.1 == name) with
  | some p => some p.2
  | none => none

/-- The whitespace-separated class names of the `class` attribute. -/
def classListOf (attrs : List (String × String)) : List String :=
  ((splitByPred jsWS ((getAttr attrs "class").getD "").data).map String.mk).filter (fun s => s != "")

/-- Declarations of the inline `style` attribute, names and values trimmed
(the computed style is modelled from inline declarations: no external
stylesheets are loaded). -/
def styleDecls (attrs : List (String × String)) : List (String × String) :=
  ((splitOnChar ';' ((getAttr attrs "style").getD "").data).map String.mk).filterMap fun d =>
    match (splitOnChar ':' d.data).map String.mk with
    | [] => none
    | name :: rest => some (jsTrim name, jsTrim (String.intercalate ":" rest))

/-- `getComputedStyle(el).display === "none" || ... .visibility === "hidden"`. -/
def computedHidden (attrs : List (String × String)) : Bool :=
  (styleDecls attrs).any fun p =>
    (p.1 == "display" && p.2 == "none") || (p.1 == "visibility" && p.2 == "hidden")

/-- `el.tagName` (uppercase for HTML elements, empty for text nodes). -/
def tagNameOf : DNode → String
  | .text _ => ""
  | .elem t _ _ => strUpper t

mutual
/-- `textContent`: concatenation of all descendant text data, in order. -/
def domText : DNode → String
  | .text s => s
  | .elem _ _ cs => domTextList cs
/-- `textContent` of a child list. -/
def domTextList : List DNode → String
  | [] => ""
  | c :: rest => domText c ++ domTextList rest
end

mutual
/-- Remove every descendant matching `p` (the snapshot-and-remove of
`querySelectorAll(...).forEach(el => el.parentNode.removeChild(el))`;
the root itself is never a query result, hence never removed). -/
def stripNode (p : DNode → Bool) : DNode → DNode
  | .text s => .text s
  | .elem t a cs => .elem t a (stripList p cs)
/-- Removal over a child list. -/
def stripList (p : DNode → Bool) : List DNode → List DNode
  | [] => []
  | c :: rest => (if p c then [] else [stripNode p c]) ++ stripList p rest
end

mutual
/-- `root.querySelectorAll`: matching descendants in document (pre-)order;
the root itself is not included. -/
def collectDesc (p : DNode → Bool) : DNode → List DNode
  | .text _ => []
  | .elem _ _ cs => collectList p cs
/-- Collection over a child list. -/
def collectList (p : DNode → Bool) : List DNode → List DNode
  | [] => []
  | c :: rest => (if p c then [c] else []) ++ collectDesc p c ++ collectList p rest
end

/-- Tags removed wholesale by stage 1 of `extractCleanContent`. -/
def structuralStripTags : List String :=
  ["script", "style", "iframe", "noscript", "svg", "canvas", "code", "pre", "link", "meta"]

/-- The `[style*=...]` substrings of the stage-1 selector. -/
def styleHiddenFragments : List String :=
  ["display:none", "display: none", "visibility:hidden", "visibility: hidden"]

/-- Stage-1 selector: structural tags, or an inline style containing a
hide fragment. -/
def matchesStructuralStrip : DNode → Bool
  | .text _ => false
  | .elem tag attrs _ =>
    structuralStripTags.contains (strLower tag) ||
    (match getAttr attrs "style" with
     | some s => styleHiddenFragments.any (fun f => strIncludes s f)
     | none => false)

/-- Ids of the stage-2 non-content selector list. -/
def nonContentIds : List String :=
  ["header", "footer", "nav", "navigation", "menu", "sidebar", "comments",
   "related", "social", "sharing", "ad", "ads", "advertisement"]

/-- Classes of the stage-2 non-content selector list. -/
def nonContentClasses : List String :=
  ["header", "footer", "nav", "navigation", "menu", "sidebar", "comments",
   "related", "social", "sharing", "ad", "ads", "advertisement",
   "cookie-banner", "popup", "modal", "overlay", "notification",
   "breadcrumbs", "pagination", "search", "search-form",
   "button", "btn", "icon", "dropdown", "tooltip"]

/-- Stage-2 selector: non-content ids/classes, framework-scaffold
attributes, and `__next`-prefixed raw id/class values. -/
def matchesNonContent : DNode → Bool
  | .text _ => false
  | .elem _ attrs _ =>
    (match getAttr attrs "id" with
     | some i => nonContentIds.contains i || strStarts i "__next"
     | none => false) ||
    (classListOf attrs).any (fun c => nonContentClasses.contains c) ||
    (getAttr attrs "data-nextjs-data").isSome ||
    (getAttr attrs "data-reactroot").isSome ||
    (match getAttr attrs "class" with
     | some c => strStarts c "__next"
     | none => false)

/-- Tags of the stage-3 content-bearing whitelist selector. -/
def contentTags : List String :=
  ["h1", "h2", "h3", "h4", "h5", "h6", "p", "article", "section", "main",
   "li", "td", "th", "dt", "dd", "figcaption", "blockquote"]

/-- Classes of the stage-3 content-bearing whitelist selector. -/
def contentClasses : List String :=
  ["content", "article", "post", "entry"]

/-- Stage-3 whitelist selector. -/
def matchesContentSel : DNode → Bool
  | .text _ => false
  | .elem tag attrs _ =>
    contentTags.contains (strLower tag) ||
    (classListOf attrs).any (fun c => contentClasses.contains c)

/-- The `p` selector of the first fallback. -/
def matchesPara : DNode → Bool
  | .text _ => false
  | .elem tag _ _ => strLower tag == "p"

/-- The JS regex `^H[1-6]$` applied to `el.tagName`. -/
def isHeadingTagName (s : String) : Bool :=
  match s.data with
  | ['H', d] => '1' ≤ d && d ≤ '6'
  | _ => false

/-- Parent tags skipped by `getAllTextNodes`' blacklist (compared through
`toUpperCase`). -/
def blacklistTagNames : List String :=
  ["SCRIPT", "STYLE", "NOSCRIPT", "IFRAME", "SVG", "CANVAS", "CODE"]

mutual
/-- The tree walk the body of `getAllTextNodes` is written to perform (and
spec 4.3 stage (c) specifies): every descendant text node in walker
(pre-)order whose immediate parent element is neither a blacklisted tag nor
computed-hidden, the text data returned in place of the node.  As executed
the source function never reaches this walk — see `getAllTextNodes`
below. -/
def walkTextNodes : DNode → List String
  | .text _ => []
  | .elem t a cs => textNodesList t a cs
/-- Text-node walk of a child list under parent `ptag`/`pattrs`. -/
def textNodesList (ptag : String) (pattrs : List (String × String)) :
    List DNode → List String
  | [] => []
  | c :: rest => textNodesHead ptag pattrs c ++ textNodesList ptag pattrs rest
/-- One child of the walk: a text node is kept unless the parent is
blacklisted or hidden; an element recurses with itself as parent. -/
def textNodesHead (ptag : String) (pattrs : List (String × String)) :
    DNode → List String
  | .text s =>
    if blacklistTagNames.contains (strUpper ptag) || computedHidden pattrs then []
    else [s]
  | .elem t a cs => textNodesList t a cs
end

/-- Stage 3 of `extractCleanContent` as intended: the content-element
branch, the paragraph fallback and the text-node walk.  The as-executed
semantics, in which the stage-(c) walk throws, is `extractTextBlocksRun`
below; the two agree whenever stage (a) or (b) fires. -/
def extractTextBlocks (body : DNode) : List String :=
  let contentElements := collectDesc matchesContentSel body
  if contentElements.length > 0 then
    contentElements.filterMap fun el =>
      let text := jsTrim (domText el)
      if text.length > 0 then
        some (if isHeadingTagName (tagNameOf el) then "\n== " ++ text ++ " ==\n"
              else text)
      else none
  else
    let paragraphs := collectDesc matchesPara body
    if paragraphs.length > 0 then
      paragraphs.filterMap fun q =>
        let text := jsTrim (domText q)
        if text.length > 0 then some text else none
    else
      (walkTextNodes body).filterMap fun s =>
        let text := jsTrim s
        if text.length > 0 && text.length < 500 then some text else none

/-- `extractCleanContent(document)` as a function of the document body:
structural strip, non-content strip, stage-3 extraction, join, code-likeness
filter.  (The source clones the document first; the clone is implicit in a
pure model.  The stage-2 `try` never fires here: selector matching is
total.)  This is the intended semantics, used by the crawl-loop model; the
as-executed semantics, whose stage (c) throws, is `extractCleanContentRun`
below, and the two agree on every body whose stage (a) or (b) fires. -/
def extractCleanContent (body : DNode) : String :=
  let b1 := stripNode matchesStructuralStrip body
  let b2 := stripNode matchesNonContent b1
  let content := String.intercalate "\n" (extractTextBlocks b2)
  filterCodeLikeContent content

/-! ### The extraction as it actually executes in the Node runtime

This module runs server-side (it is imported by the Next.js server actions
and itself imports `fs/promises` and `jsdom`); the only `document` binding
in the file, `const document = dom.window.document`, is local to
`crawlWebsite`.  The first statement of `getAllTextNodes` dereferences the
bare globals `document` (for `createTreeWalker`, and again for
`defaultView.getComputedStyle`) and `NodeFilter`, so calling it throws a
`ReferenceError` before any walking; `extractCleanContent` wraps only the
stage-2 removal in `try`, so the exception escapes to the per-page catch
of `crawlWebsite`. -/

/-- `getAllTextNodes(element)` as it actually executes: the undefined
global `document` is read first, so every call throws.  The walk the body
is written to perform is `walkTextNodes`, dead code at runtime. -/
def getAllTextNodes (_element : DNode) : Except String (List String) :=
  .error "ReferenceError: document is not defined"

/-- Stage 3 of `extractCleanContent` as it actually executes: stages (a)
and (b) as written; reaching stage (c) calls `getAllTextNodes` and
propagates its exception. -/
def extractTextBlocksRun (body : DNode) : Except String (List String) :=
  let contentElements := collectDesc matchesContentSel body
  if contentElements.length > 0 then
    .ok (contentElements.filterMap fun el =>
      let text := jsTrim (domText el)
      if text.length > 0 then
        some (if isHeadingTagName (tagNameOf el) then "\n== " ++ text ++ " ==\n"
              else text)
      else none)
  else
    let paragraphs := collectDesc matchesPara body
    if paragraphs.length > 0 then
      .ok (paragraphs.filterMap fun q =>
        let text := jsTrim (domText q)
        if text.length > 0 then some text else none)
    else
      match getAllTextNodes body with
      | .error e => .error e
      | .ok textNodes =>
        .ok (textNodes.filterMap fun s =>
          let text := jsTrim s
          if text.length > 0 && text.length < 500 then some text else none)

/-- `extractCleanContent` as it actually executes: the stage-(c)
`ReferenceError` propagates (only stage 2 is wrapped in `try`). -/
def extractCleanContentRun (body : DNode) : Except String String :=
  let b1 := stripNode matchesStructuralStrip body
  let b2 := stripNode matchesNonContent b1
  match extractTextBlocksRun b2 with
  | .error e => .error e
  | .ok blocks => .ok (filterCodeLikeContent (String.intercalate "\n" blocks))

/-! ### The crawl loop (`crawlWebsite`)

Network fetches, `new URL` resolution and hostname extraction are external
collaborators, modelled as oracles in `Net`; a page fetch that errors or
returns non-2xx is `none` (both continue the loop identically in the
source).  A fetched page is the JSDOM parse result: title, body, the
`img` elements' `src`/`alt` (empty string for an absent/falsy value) and the
`a` elements' `href` values.  Image-processing side effects are recorded as
an event trace in execution order (content push, then conditional file
write). -/

/-- An `img` element as read by the crawler (`src`/`alt` of `""` model a
falsy property). -/
structure ImgEl where
  src : String
  alt : String
deriving Repr, DecidableEq

/-- The JSDOM parse of a fetched page. -/
structure Page where
  title : String
  body : DNode
  imgs : List ImgEl
  anchors : List String
deriving Repr

/-- The external collaborators: page fetch + parse, image fetch,
`new URL(ref, base).href` resolution and `new URL(u).hostname`; `none`
models a thrown error / failed response. -/
structure Net where
  fetchPage : String → Option Page
  fetchImage : String → Option String
  resolve : String → String → Option String
  hostOf : String → Option String

/-- `String.fromCharCode(65 + (imageCounter % 26))`. -/
def imageIdFor (c : Nat) : Char :=
  Char.ofNat (65 + c % 26)

/-- The image reference line pushed for the image with counter value `c`
(`image["<id>"]: <altText>`, alt defaulted). -/
def refLineFor (c : Nat) (alt : String) : String :=
  "\nimage[\"" ++ String.singleton (imageIdFor c) ++ "\"]: " ++
    (if alt == "" then "No description" else alt)

/-- Node's `path.extname` on the inputs used here: the extension of the
last path segment; empty when there is no dot or the dot is the segment's
first character (all-dot segments follow the `..` special case). -/
def extnameOf (p : String) : String :=
  let base := ((splitOnChar '/' p.data).map String.mk).getLastD ""
  if base == ".." then ""
  else
    let cs := base.data
    match cs.reverse.findIdx? (fun c => c == '.') with
    | none => ""
    | some k =>
      let pos := cs.length - 1 - k
      if pos == 0 then "" else String.mk (cs.drop pos)

/-- One image-processing side effect, in execution order: a content-line
push or an image file write. -/
inductive ImgEvent where
  | refLine (line : String)
  | fileWrite (name : String) (bytes : String)
deriving Repr, DecidableEq

/-- The content line of an event, if it is one. -/
def refOf : ImgEvent → Option String
  | .refLine s => some s
  | _ => none

/-- The file written by an event, if it is one. -/
def writeOf : ImgEvent → Option (String × String)
  | .fileWrite n b => some (n, b)
  | _ => none

/-- The body of the per-image loop: skip falsy/unresolvable/data sources;
otherwise assign the id from the crawl-global counter, push the reference
line, then attempt the download and write the file only on success.  A
download failure (`fetchImage = none`) is the caught `imgError` path:
logged, no file, processing continues. -/
def processOneImage (net : Net) (base : String) (c : Nat) (img : ImgEl) :
    List ImgEvent × Nat :=
  if img.src == "" then ([], c)
  else
    match net.resolve img.src base with
    | none => ([], c)
    | some imgUrl =>
      if strStarts imgUrl "data:" then ([], c)
      else
        let imageId := String.singleton (imageIdFor c)
        let altText := if img.alt == "" then "No description" else img.alt
        let refL := "\nimage[\"" ++ imageId ++ "\"]: " ++ altText
        match net.fetchImage imgUrl with
        | some bytes =>
          let ext0 := extnameOf imgUrl
          let imgExt := if ext0 == "" then ".jpg" else ext0
          ([.refLine refL, .fileWrite ("image_" ++ imageId ++ imgExt) bytes],
           c + 1)
        | none => ([.refLine refL], c + 1)

/-- The whole per-page image loop, threading the crawl-global counter. -/
def processImages (net : Net) (base : String) : Nat → List ImgEl → List ImgEvent × Nat
  | c, [] => ([], c)
  | c, img :: rest =>
    let r1 := processOneImage net base c img
    let r2 := processImages net base r1.2 rest
    (r1.1 ++ r2.1, r2.2)

/-- Does this image reach the counter/reference/download part of the loop
(truthy `src`, resolvable, not a data URL)? -/
def passesImg (net : Net) (base : String) (img : ImgEl) : Bool :=
  img.src != "" &&
    match net.resolve img.src base with
    | some u => !strStarts u "data:"
    | none => false

/-- The per-page link loop: resolve each href, skip unresolvable ones and
social/external hosts, and append to the queue only a same-domain (or
subdomain) URL without `#` that is neither visited nor already queued. -/
def processLinks (net : Net) (domain base : String) (visited : List String) :
    List String → List String → List String
  | q, [] => q
  | q, href :: rest =>
    if href == "" then processLinks net domain base visited q rest
    else
      match net.resolve href base with
      | none => processLinks net domain base visited q rest
      | some linkUrl =>
        match net.hostOf linkUrl with
        | none => processLinks net domain base visited q rest
        | some linkHostname =>
          if isExternalOrSocialMediaLink linkHostname domain then
            processLinks net domain base visited q rest
          else if (linkHostname == domain || strEnds linkHostname ("." ++ domain)) &&
              !strIncludes linkUrl "#" &&
              !visited.contains linkUrl &&
              !q.contains linkUrl then
            processLinks net domain base visited (q ++ [linkUrl]) rest
          else
            processLinks net domain base visited q rest

/-- The mutable crawl state: the `visited` set (insertion order), the FIFO
queue, `contentLines`, the crawl-global `imageCounter`, `pagesProcessed`,
and the image files written so far (the filesystem model). -/
structure CrawlState where
  visited : List String
  queue : List String
  lines : List String
  imageCounter : Nat
  pagesProcessed : Nat
  files : List (String × String)
deriving Repr, DecidableEq

/-- One iteration of the `while (queue.length > 0)` loop: dequeue, skip if
visited, mark visited, fetch (failure continues), push the page header and
cleaned content, process images, then discover links. -/
def crawlStep (net : Net) (domain : String) (st : CrawlState) : CrawlState :=
  match st.queue with
  | [] => st
  | currentUrl :: rest =>
    if st.visited.contains currentUrl then { st with queue := rest }
    else
      let visited1 := st.visited ++ [currentUrl]
      match net.fetchPage currentUrl with
      | none => { st with queue := rest, visited := visited1 }
      | some page =>
        let title := if page.title == "" then "No Title" else page.title
        let lines1 := st.lines ++
          ["\n\n==== PAGE: " ++ title ++ " ====", "URL: " ++ currentUrl ++ "\n"]
        let lines2 := lines1 ++ [extractCleanContent page.body]
        let res := processImages net currentUrl st.imageCounter page.imgs
        let lines3 := lines2 ++ res.1.filterMap refOf
        let files1 := st.files ++ res.1.filterMap writeOf
        let queue1 := processLinks net domain currentUrl visited1 rest page.anchors
        { visited := visited1, queue := queue1, lines := lines3,
          imageCounter := res.2, pagesProcessed := st.pagesProcessed + 1,
          files := files1 }

/-- The state at loop entry: `visited = {}`, `queue = [startUrl]`. -/
def initState (startUrl : String) : CrawlState :=
  { visited := [], queue := [startUrl], lines := [], imageCounter := 0,
    pagesProcessed := 0, files := [] }

/-- `fuel` iterations of the loop (a no-op once the queue is empty). -/
def runSteps (net : Net) (domain : String) : Nat → CrawlState → CrawlState
  | 0, st => st
  | n + 1, st => runSteps net domain n (crawlStep net domain st)

/-- The value returned by `crawlWebsite` (the `outputDir` path and log
output are not modelled; `content` is the joined `contentLines` written to
the output text file). -/
structure CrawlResult where
  success : Bool
  pagesVisited : Nat
  imagesDownloaded : Nat
  content : String
  error : Option String
deriving Repr, DecidableEq

/-- `crawlWebsite(startUrl)`: an unparsable start URL throws before the
loop and is caught by the outer handler (`success:false`); otherwise the
loop runs to exhaustion and the success record is built from the final
state.  `fuel` bounds the number of loop iterations modelled; `none` means
the loop is still running after `fuel` iterations (the source has no bound
and simply may not terminate).  Output-directory creation and the final
file write are assumed to succeed; the progress callback is a no-op here. -/
def crawlWebsite (net : Net) (startUrl : String) (fuel : Nat) : Option CrawlResult :=
  match net.hostOf startUrl with
  | none =>
    some { success := false, pagesVisited := 0, imagesDownloaded := 0,
           content := "", error := some "Invalid URL" }
  | some domain =>
    let final := runSteps net domain fuel (initState startUrl)
    if final.queue.isEmpty then
      some { success := true, pagesVisited := final.visited.length,
             imagesDownloaded := final.imageCounter,
             content := String.intercalate "\n" final.lines, error := none }
    else none

/-! ### The archiver (`createZipArchive`)

The promise executor registers handlers on the archiver stream; its
observable behaviour is a function of the event sequence the stream emits.
A promise settles once: the first settling event wins, later events are
ignored, so the outcome folds over the events emitted in order. -/

/-- An event emitted by the archiver stream: a warning carrying an error
code, a fatal archiving error, or the output stream closing with
`archive.pointer()` total bytes. -/
inductive ArchiveEvent where
  | warning (code : String)
  | errored
  | closed (totalBytes : Nat)
deriving Repr, DecidableEq

/-- How the `createZipArchive` promise settles. -/
inductive ArchiveOutcome where
  | resolvedWith (totalBytes : Nat)
  | rejected
deriving Repr, DecidableEq

/-- `createZipArchive` as a function of the emitted event sequence: an
`ENOENT` warning is logged (`console.warn`) and skipped; any other warning
or an error rejects; `close` resolves, logging the total byte count.
`none`: no settling event occurred. -/
def createZipArchive : List ArchiveEvent → Option ArchiveOutcome
  | [] => none
  | .warning code :: rest =>
    if code == "ENOENT" then createZipArchive rest else some .rejected
  | .errored :: _ => some .rejected
  | .closed n :: _ => some (.resolvedWith n)

/-! ### Specification-side definitions

The fallback chain as the specification words it, for the refinement
theorem: stage texts from (a) the whitelist elements with headings wrapped,
(b) all paragraph elements, (c) the filtered text-node walk; the first
stage whose element match is non-empty is used. -/

/-- Stage (a) as specified: text of every whitelist element, headings
wrapped as `\n== <text> ==\n`, empty texts dropped. -/
def specStageWhitelist (body : DNode) : List String :=
  (collectDesc matchesContentSel body).filterMap fun el =>
    let t := jsTrim (domText el)
    if t = "" then none
    else if isHeadingTagName (tagNameOf el) then some ("\n== " ++ t ++ " ==\n")
    else some t

/-- Stage (b) as specified: text from all paragraph elements. -/
def specStageParagraphs (body : DNode) : List String :=
  (collectDesc matchesPara body).filterMap fun el =>
    let t := jsTrim (domText el)
    if t = "" then none else some t

/-- Stage (c) as specified: the direct text-node walk (which already
excludes blacklisted-tag and computed-hidden parents), dropping empty
blocks and any block 500 characters or longer. -/
def specStageTextWalk (body : DNode) : List String :=
  (walkTextNodes body).filterMap fun s =>
    let t := jsTrim s
    if t = "" then none
    else if 500 ≤ t.length then none
    else some t

/-- The three-stage chain, top to bottom, selected by the first stage whose
element match is non-empty. -/
def specFallbackChain (body : DNode) : List String :=
  if (collectDesc matchesContentSel body).isEmpty then
    if (collectDesc matchesPara body).isEmpty then specStageTextWalk body
    else specStageParagraphs body
  else specStageWhitelist body

/-- A URL that passed the enqueue guard: its hostname is known, in scope
for the crawl's base domain, and the URL carries no `#`. -/
def goodLink (net : Net) (domain u : String) : Prop :=
  ∃ h, net.hostOf u = some h ∧ inScopeHost h domain = true ∧
    strIncludes u "#" = false

/-- Queue hygiene: no duplicates, and no queued URL is already visited. -/
def queueInv (st : CrawlState) : Prop :=
  st.queue.Nodup ∧ ∀ u ∈ st.queue, u ∉ st.visited

/-- Every URL that reaches the queue or the visited set is the start URL or
passed the enqueue guard. -/
def scopeInv (net : Net) (domain start : String) (st : CrawlState) : Prop :=
  ∀ u, (u ∈ st.queue ∨ u ∈ st.visited) → u = start ∨ goodLink net domain u

/-! ### Concrete instances used by witnesses and counterexamples -/

/-- A minimal oracle set: every page fetch fails, every image fetch fails,
resolution is the identity, every hostname is `example.com`. -/
def net0 : Net :=
  { fetchPage := fun _ => none
    fetchImage := fun _ => none
    resolve := fun r _ => some r
    hostOf := fun _ => some "example.com" }

/-- Oracles whose every hostname is the denylisted `twitter.com`. -/
def netTw : Net :=
  { fetchPage := fun _ => none
    fetchImage := fun _ => none
    resolve := fun r _ => some r
    hostOf := fun _ => some "twitter.com" }

/-- A two-page site: the root links to `/b`, whose fetch returns 404. -/
def cexNet : Net :=
  { fetchPage := fun u =>
      if u == "https://example.com/" then
        some { title := "A"
               body := .elem "body" [] [.elem "p" [] [.text "Hello from A"]]
               imgs := []
               anchors := ["https://example.com/b"] }
      else none
    fetchImage := fun _ => none
    resolve := fun r _ => some r
    hostOf := fun _ => some "example.com" }

/-- A page carrying one data-URL image and one real image. -/
def pageImg : Page :=
  { title := "T"
    body := .elem "body" [] []
    imgs := [⟨"data:image/png;base64,xyz", "inline"⟩, ⟨"/i.png", "pic"⟩]
    anchors := [] }

/-- Oracles serving `pageImg` for every page and failing every image
download. -/
def netI : Net :=
  { fetchPage := fun _ => some pageImg
    fetchImage := fun _ => none
    resolve := fun r _ => some r
    hostOf := fun _ => some "example.com" }

/-- The code-like line of the filter test. -/
def codeLine : String := "const x = \x7b\"a\":1,\"b\":2,\"c\":3\x7d"

/-- The prose line of the filter test. -/
def proseLine : String := "The quick brown fox jumps over the lazy dog."

/-- A body whose whitelist match is non-empty: a heading and a paragraph. -/
def exDocHeading : DNode :=
  .elem "body" []
    [.elem "h1" [] [.text "Title"], .elem "p" [] [.text "Body text here"]]

/-- A body with no whitelist or paragraph element: a `code` child (whose
text the walk must skip) and a direct text child. -/
def exDocWalk : DNode :=
  .elem "body" [] [.elem "code" [] [.text "skipped"], .text "hello"]

/-- A 500-character block (at the exclusion threshold). -/
def longBlock : String := String.mk (List.replicate 500 'a')

/-- A body whose only extraction route is the text-node walk, with one
500-character block and one short block. -/
def exDocLong : DNode :=
  .elem "body" [] [.elem "div" [] [.text longBlock], .text "short"]

/-! ### Lemmas about image processing -/

theorem processOneImage_skip (net : Net) (base : String) (c : Nat) (img : ImgEl)
    (h : passesImg net base img = false) :
    processOneImage net base c img = ([], c) := by
  unfold processOneImage
  cases h1 : img.src == "" with
  | true => simp [h1]
  | false =>
    cases hres : net.resolve img.src base with
    | none => simp [h1, hres]
    | some u =>
      cases hsw : strStarts u "data:" with
      | true => simp [h1, hres, hsw]
      | false =>
        exfalso
        unfold passesImg at h
        rw [hres] at h
        simp [bne, h1, hsw] at h

theorem processOneImage_pass (net : Net) (base : String) (c : Nat) (img : ImgEl)
    (u : String) (h1 : (img.src == "") = false)
    (h2 : net.resolve img.src base = some u)
    (h3 : strStarts u "data:" = false) :
    processOneImage net base c img =
      (ImgEvent.refLine (refLineFor c img.alt) ::
        (match net.fetchImage u with
         | some bytes =>
           [ImgEvent.fileWrite
             ("image_" ++ String.singleton (imageIdFor c) ++
               (if extnameOf u == "" then ".jpg" else extnameOf u)) bytes]
         | none => []),
       c + 1) := by
  unfold processOneImage refLineFor
  simp only [h1, Bool.false_eq_true, if_false, h2, h3]
  cases net.fetchImage u <;> simp

theorem passesImg_elim (net : Net) (base : String) (img : ImgEl)
    (hp : passesImg net base img = true) :
    (img.src == "") = false ∧
      ∃ u, net.resolve img.src base = some u ∧ strStarts u "data:" = false := by
  unfold passesImg at hp
  cases hsrc : img.src == "" with
  | true => rw [bne, hsrc] at hp; simp at hp
  | false =>
    refine ⟨rfl, ?_⟩
    rw [bne, hsrc] at hp
    simp only [Bool.not_false, Bool.true_and] at hp
    cases hres : net.resolve img.src base with
    | none => rw [hres] at hp; simp at hp
    | some u =>
      rw [hres] at hp
      exact ⟨u, rfl, by simpa using hp⟩

theorem processImages_spec (net : Net) (base : String) :
    ∀ imgs c,
      (processImages net base c imgs).1.filterMap refOf =
        ((imgs.filter (passesImg net base)).enumFrom c).map
          (fun p => refLineFor p.1 p.2.alt) ∧
      (processImages net base c imgs).2 =
        c + (imgs.filter (passesImg net base)).length := by
  intro imgs
  induction imgs with
  | nil => intro c; simp [processImages]
  | cons img rest ih =>
    intro c
    by_cases hp : passesImg net base img = true
    · obtain ⟨h1, u, hres, hdata⟩ := passesImg_elim net base img hp
      have IH := ih (c + 1)
      simp only [processImages]
      rw [processOneImage_pass net base c img u h1 hres hdata]
      constructor
      · simp only [List.filter_cons, hp, if_true, List.enumFrom, List.map_cons]
        cases hfi : net.fetchImage u with
        | none =>
          simpa [List.filterMap_cons, refOf, hfi] using IH.1
        | some bytes =>
          simpa [List.filterMap_cons, refOf, hfi] using IH.1
      · cases hfi : net.fetchImage u with
        | none => simp only [hfi]; rw [IH.2]; simp [List.filter_cons, hp]; omega
        | some bytes => simp only [hfi]; rw [IH.2]; simp [List.filter_cons, hp]; omega
    · have hp' : passesImg net base img = false := eq_false_of_ne_true hp
      have IH := ih c
      simp only [processImages]
      rw [processOneImage_skip net base c img hp']
      simpa [List.filter_cons, hp'] using IH

/-! ### C7: the code-likeness filter on the two test lines -/

/-- C7: applied line by line, the code-likeness filter drops
`const x = {"a":1,"b":2,"c":3}` (it matches the `const ` declaration signal,
among others) and keeps `The quick brown fox jumps over the lazy dog.`;
filtering the two-line text yields exactly the prose line. -/
theorem claim_C7 :
    keepLine codeLine = false ∧
    keepLine proseLine = true ∧
    strIncludes (jsTrim codeLine) "const " = true ∧
    filterCodeLikeContent (codeLine ++ "\n" ++ proseLine) = proseLine := by
  refine ⟨by decide, by decide, by decide, by decide⟩

/-! ### C8: archiver warning/error handling -/

/-- C8: an `ENOENT` per-entry warning is logged and skipped (the promise
settles exactly as without it); any other warning rejects; an archiver
error rejects; the stream closing resolves with the total byte count — in
particular a run whose warnings are all `ENOENT` resolves with the byte
count of its `close` event. -/
theorem claim_C8 :
    ∀ (code : String) (rest : List ArchiveEvent) (n : Nat),
      (code = "ENOENT" →
        createZipArchive (.warning code :: rest) = createZipArchive rest) ∧
      (code ≠ "ENOENT" →
        createZipArchive (.warning code :: rest) = some .rejected) ∧
      createZipArchive (.errored :: rest) = some .rejected ∧
      createZipArchive (.closed n :: rest) = some (.resolvedWith n) ∧
      (∀ ws : List String, (∀ c ∈ ws, c = "ENOENT") →
        createZipArchive (ws.map .warning ++ [.closed n]) =
          some (.resolvedWith n)) := by
  intro code rest n
  refine ⟨?_, ?_, rfl, rfl, ?_⟩
  · intro h; simp [createZipArchive, h]
  · intro h
    have : (code == "ENOENT") = false := by simpa using h
    simp [createZipArchive, this]
  · intro ws hws
    induction ws with
    | nil => simp [createZipArchive]
    | cons w tail ih =>
      have hw : w = "ENOENT" := hws w (List.mem_cons_self w tail)
      simp only [List.map_cons, List.cons_append, createZipArchive, hw]
      simp only [beq_self_eq_true, if_true]
      exact ih (fun c hc => hws c (List.mem_cons_of_mem w hc))

theorem claim_C8_witness :
    createZipArchive [.warning "ENOENT", .closed 5] =
      createZipArchive [.closed 5] ∧
    createZipArchive [.warning "EPERM"] = some .rejected ∧
    createZipArchive [.warning "ENOENT", .warning "ENOENT", .closed 7] =
      some (.resolvedWith 7) :=
  ⟨(claim_C8 "ENOENT" [.closed 5] 0).1 rfl,
   (claim_C8 "EPERM" [] 0).2.1 (by decide),
   (claim_C8 "x" [] 7).2.2.2.2 ["ENOENT", "ENOENT"] (by decide)⟩

/-! ### C4: crawl-global letter identifiers -/

/-- C4: the identifier is the letter at position `counter % 26` of A–Z; the
1st and the 27th counted image both get `A`; the reference lines a page
emits enumerate the passing (non-data-URL) images with consecutive counter
values; `crawlStep` feeds the state's crawl-global counter into the page's
images and the counter starts at 0 — so the n-th passing image of the whole
crawl is numbered `n` counting from 0. -/
theorem claim_C4 :
    (∀ n, imageIdFor n = Char.ofNat (65 + n % 26)) ∧
    imageIdFor 0 = 'A' ∧
    imageIdFor 26 = 'A' ∧
    (∀ (net : Net) (base : String) (c : Nat) (imgs : List ImgEl),
      (processImages net base c imgs).1.filterMap refOf =
        ((imgs.filter (passesImg net base)).enumFrom c).map
          (fun p => refLineFor p.1 p.2.alt)) ∧
    (∀ (net : Net) (domain : String) (st : CrawlState) (u : String)
        (rest : List String) (page : Page),
      st.queue = u :: rest → st.visited.contains u = false →
      net.fetchPage u = some page →
      (crawlStep net domain st).imageCounter =
        st.imageCounter + (page.imgs.filter (passesImg net u)).length) ∧
    (∀ s, (initState s).imageCounter = 0) := by
  refine ⟨fun n => rfl, by decide, by decide, ?_, ?_, fun s => rfl⟩
  · intro net base c imgs
    exact (processImages_spec net base imgs c).1
  · intro net domain st u rest page hq hv hf
    simp only [crawlStep]
    rw [hq]
    simp only [hv, Bool.false_eq_true, if_false, hf]
    exact (processImages_spec net u page.imgs st.imageCounter).2

theorem claim_C4_witness :
    (crawlStep netI "example.com" (initState "s")).imageCounter =
      (initState "s").imageCounter +
        (pageImg.imgs.filter (passesImg netI "s")).length :=
  claim_C4.2.2.2.2.1 netI "example.com" (initState "s") "s" [] pageImg rfl rfl rfl

/-! ### C5: reference line precedes the download attempt -/

/-- C5: for an image that reaches the download part of the loop, the first
emitted effect is the content push of the reference line; when the download
fails the trace is exactly that reference line and no file write; and the
rest of the page's images are still processed afterwards. -/
theorem claim_C5 :
    ∀ (net : Net) (base : String) (c : Nat) (img : ImgEl) (u : String)
      (rest : List ImgEl),
      (img.src == "") = false →
      net.resolve img.src base = some u →
      strStarts u "data:" = false →
      (processOneImage net base c img).1.head? =
        some (.refLine (refLineFor c img.alt)) ∧
      (net.fetchImage u = none →
        (processOneImage net base c img).1 =
          [.refLine (refLineFor c img.alt)] ∧
        (processOneImage net base c img).1.filterMap writeOf = []) ∧
      (processImages net base c (img :: rest)).1 =
        (processOneImage net base c img).1 ++
          (processImages net base (processOneImage net base c img).2 rest).1 ∧
      (processImages net base c (img :: rest)).2 =
        (processImages net base (processOneImage net base c img).2 rest).2 := by
  intro net base c img u rest h1 h2 h3
  have hP := processOneImage_pass net base c img u h1 h2 h3
  refine ⟨?_, ?_, rfl, rfl⟩
  · rw [hP]; rfl
  · intro hfi
    rw [hP, hfi]
    exact ⟨rfl, rfl⟩

theorem claim_C5_witness :
    (processOneImage net0 "https://example.com/" 0 ⟨"/i.png", "logo"⟩).1.head? =
      some (.refLine (refLineFor 0 "logo")) ∧
    (processOneImage net0 "https://example.com/" 0 ⟨"/i.png", "logo"⟩).1 =
      [.refLine (refLineFor 0 "logo")] ∧
    (processOneImage net0 "https://example.com/" 0
        ⟨"/i.png", "logo"⟩).1.filterMap writeOf = [] := by
  have h := claim_C5 net0 "https://example.com/" 0 ⟨"/i.png", "logo"⟩
    "/i.png" [] (by decide) rfl (by decide)
  exact ⟨h.1, (h.2.1 rfl).1, (h.2.1 rfl).2⟩

/-! ### C10: `imagesDownloaded` counts encounters, not successes -/

/-- C10: the counter a page's image loop returns is the old counter plus
the number of passing (non-data-URL) images — the download outcome does not
appear on the right-hand side; a completed crawl reports the final counter
as `imagesDownloaded`; concretely, an image whose download fails is still
counted and writes no file. -/
theorem claim_C10 :
    (∀ (net : Net) (base : String) (c : Nat) (imgs : List ImgEl),
      (processImages net base c imgs).2 =
        c + (imgs.filter (passesImg net base)).length) ∧
    (∀ (net : Net) (start d : String) (fuel : Nat) (r : CrawlResult),
      net.hostOf start = some d →
      crawlWebsite net start fuel = some r →
      r.success = true →
      r.imagesDownloaded =
        (runSteps net d fuel (initState start)).imageCounter) ∧
    (processImages net0 "b" 0 [⟨"/i.png", "x"⟩]).2 = 1 ∧
    (processImages net0 "b" 0 [⟨"/i.png", "x"⟩]).1.filterMap writeOf = [] := by
  refine ⟨?_, ?_, by decide, by decide⟩
  · intro net base c imgs
    exact (processImages_spec net base imgs c).2
  · intro net start d fuel r hhost hcw _hs
    simp only [crawlWebsite, hhost] at hcw
    split at hcw
    · injection hcw with h
      rw [← h]
    · exact absurd hcw (by simp)

theorem claim_C10_witness :
    (CrawlResult.mk true 1 0 "" none).imagesDownloaded =
      (runSteps net0 "example.com" 1 (initState "s")).imageCounter :=
  claim_C10.2.1 net0 "s" "example.com" 1 (CrawlResult.mk true 1 0 "" none)
    rfl (by decide) rfl

/-! ### Lemmas about link discovery and the traversal invariants -/

theorem contains_false_iff (l : List String) (a : String) :
    l.contains a = false ↔ a ∉ l := by
  simp

theorem processLinks_mem (net : Net) (domain base : String)
    (visited : List String) :
    ∀ (anchors q : List String) (u : String),
      u ∈ processLinks net domain base visited q anchors →
      u ∈ q ∨ goodLink net domain u := by
  intro anchors
  induction anchors with
  | nil =>
    intro q u h
    simp only [processLinks] at h
    exact Or.inl h
  | cons a rest ih =>
    intro q u hmem
    simp only [processLinks] at hmem
    cases hc : a == "" with
    | true => simp only [hc, if_true] at hmem; exact ih q u hmem
    | false =>
      simp only [hc, Bool.false_eq_true, if_false] at hmem
      cases hres : net.resolve a base with
      | none => simp only [hres] at hmem; exact ih q u hmem
      | some linkUrl =>
        simp only [hres] at hmem
        cases hhost : net.hostOf linkUrl with
        | none => simp only [hhost] at hmem; exact ih q u hmem
        | some lh =>
          simp only [hhost] at hmem
          cases hext : isExternalOrSocialMediaLink lh domain with
          | true => simp only [hext, if_true] at hmem; exact ih q u hmem
          | false =>
            simp only [hext, Bool.false_eq_true, if_false] at hmem
            cases hg : (lh == domain || strEnds lh ("." ++ domain)) &&
                !strIncludes linkUrl "#" &&
                !visited.contains linkUrl && !q.contains linkUrl with
            | false => simp only [hg, Bool.false_eq_true, if_false] at hmem; exact ih q u hmem
            | true =>
              simp only [hg, if_true] at hmem
              rcases ih (q ++ [linkUrl]) u hmem with hq | hgood
              · rcases List.mem_append.1 hq with h | h
                · exact Or.inl h
                · have hu : u = linkUrl := by simpa using h
                  subst hu
                  simp only [Bool.and_eq_true, Bool.not_eq_true'] at hg
                  exact Or.inr ⟨lh, hhost,
                    by simp [inScopeHost, hext, hg.1.1.1], hg.1.1.2⟩
              · exact Or.inr hgood

theorem processLinks_hygiene (net : Net) (domain base : String)
    (visited : List String) :
    ∀ (anchors q : List String), q.Nodup → (∀ u ∈ q, u ∉ visited) →
      (processLinks net domain base visited q anchors).Nodup ∧
      (∀ u ∈ processLinks net domain base visited q anchors, u ∉ visited) := by
  intro anchors
  induction anchors with
  | nil =>
    intro q h1 h2
    simp only [processLinks]
    exact ⟨h1, h2⟩
  | cons a rest ih =>
    intro q h1 h2
    simp only [processLinks]
    cases hc : a == "" with
    | true => simp only [hc, if_true]; exact ih q h1 h2
    | false =>
      simp only [hc, Bool.false_eq_true, if_false]
      cases hres : net.resolve a base with
      | none => simp only [hres]; exact ih q h1 h2
      | some linkUrl =>
        simp only [hres]
        cases hhost : net.hostOf linkUrl with
        | none => simp only [hhost]; exact ih q h1 h2
        | some lh =>
          simp only [hhost]
          cases hext : isExternalOrSocialMediaLink lh domain with
          | true => simp only [hext, if_true]; exact ih q h1 h2
          | false =>
            simp only [hext, Bool.false_eq_true, if_false]
            cases hg : (lh == domain || strEnds lh ("." ++ domain)) &&
                !strIncludes linkUrl "#" &&
                !visited.contains linkUrl && !q.contains linkUrl with
            | false => simp only [hg, Bool.false_eq_true, if_false]; exact ih q h1 h2
            | true =>
              simp only [hg, if_true]
              simp only [Bool.and_eq_true, Bool.not_eq_true'] at hg
              have hnin : linkUrl ∉ q := (contains_false_iff q linkUrl).1 hg.2
              have hnv : linkUrl ∉ visited :=
                (contains_false_iff visited linkUrl).1 hg.1.2
              refine ih (q ++ [linkUrl]) ?_ ?_
              · simp [List.nodup_append, h1, hnin]
              · intro u hu
                rcases List.mem_append.1 hu with h | h
                · exact h2 u h
                · have : u = linkUrl := by simpa using h
                  subst this
                  exact hnv

theorem crawlStep_queueInv (net : Net) (domain : String) (st : CrawlState)
    (h : queueInv st) : queueInv (crawlStep net domain st) := by
  obtain ⟨hnd, hdis⟩ := h
  cases hq : st.queue with
  | nil =>
    simp only [crawlStep, hq]
    exact ⟨hnd, hdis⟩
  | cons cur rest =>
    rw [hq] at hnd hdis
    have hcur : cur ∉ rest := (List.nodup_cons.1 hnd).1
    have hrest : rest.Nodup := (List.nodup_cons.1 hnd).2
    simp only [crawlStep, hq]
    cases hv : st.visited.contains cur with
    | true =>
      simp only [if_true]
      exact ⟨hrest, fun u hu => hdis u (List.mem_cons_of_mem cur hu)⟩
    | false =>
      simp only [Bool.false_eq_true, if_false]
      have hdis1 : ∀ u ∈ rest, u ∉ st.visited ++ [cur] := by
        intro u hu hmem
        rcases List.mem_append.1 hmem with h | h
        · exact hdis u (List.mem_cons_of_mem cur hu) h
        · have heq : u = cur := by simpa using h
          exact hcur (heq ▸ hu)
      cases hf : net.fetchPage cur with
      | none => exact ⟨hrest, hdis1⟩
      | some page =>
        exact processLinks_hygiene net domain cur (st.visited ++ [cur])
          page.anchors rest hrest hdis1

theorem runSteps_queueInv (net : Net) (domain : String) :
    ∀ (n : Nat) (st : CrawlState), queueInv st →
      queueInv (runSteps net domain n st) := by
  intro n
  induction n with
  | zero => intro st h; exact h
  | succ m ih =>
    intro st h
    exact ih (crawlStep net domain st) (crawlStep_queueInv net domain st h)

theorem initState_queueInv (s : String) : queueInv (initState s) := by
  constructor
  · simp [initState]
  · intro u hu
    simp [initState]

theorem crawlStep_scopeInv (net : Net) (domain start : String)
    (st : CrawlState) (h : scopeInv net domain start st) :
    scopeInv net domain start (crawlStep net domain st) := by
  cases hq : st.queue with
  | nil => simpa [crawlStep, hq, scopeInv] using h
  | cons cur rest =>
    have hsub : ∀ u, u ∈ rest ∨ u ∈ st.visited → u = start ∨ goodLink net domain u := by
      intro u hu
      refine h u ?_
      rcases hu with h1 | h1
      · exact Or.inl (hq ▸ List.mem_cons_of_mem cur h1)
      · exact Or.inr h1
    have hcurM : cur = start ∨ goodLink net domain cur :=
      h cur (Or.inl (hq ▸ List.mem_cons_self cur rest))
    simp only [crawlStep, hq]
    cases hv : st.visited.contains cur with
    | true =>
      intro u hu
      exact hsub u hu
    | false =>
      simp only [Bool.false_eq_true, if_false]
      have hvis1 : ∀ u, u ∈ st.visited ++ [cur] →
          u = start ∨ goodLink net domain u := by
        intro u hu
        rcases List.mem_append.1 hu with h1 | h1
        · exact hsub u (Or.inr h1)
        · have : u = cur := by simpa using h1
          subst this
          exact hcurM
      cases hf : net.fetchPage cur with
      | none =>
        intro u hu
        rcases hu with h1 | h1
        · exact hsub u (Or.inl h1)
        · exact hvis1 u h1
      | some page =>
        intro u hu
        rcases hu with h1 | h1
        · rcases processLinks_mem net domain cur (st.visited ++ [cur])
            page.anchors rest u h1 with h2 | h2
          · exact hsub u (Or.inl h2)
          · exact Or.inr h2
        · exact hvis1 u h1

theorem runSteps_scopeInv (net : Net) (domain start : String) :
    ∀ (n : Nat) (st : CrawlState), scopeInv net domain start st →
      scopeInv net domain start (runSteps net domain n st) := by
  intro n
  induction n with
  | zero => intro st h; exact h
  | succ m ih =>
    intro st h
    exact ih (crawlStep net domain st) (crawlStep_scopeInv net domain start st h)

theorem initState_scopeInv (net : Net) (domain s : String) :
    scopeInv net domain s (initState s) := by
  intro u hu
  rcases hu with h | h
  · left; simpa [initState] using h
  · simp [initState] at h

theorem denylistHit (h d : String)
    (hd : socialMediaDomains.any (fun sd => strEnds h sd || h == sd) = true) :
    isExternalOrSocialMediaLink h d = true := by
  simp only [isExternalOrSocialMediaLink, hd, if_true]

/-! ### C9: queue hygiene and the dequeue-time skip -/

/-- C9: from the initial state on, after any number of loop iterations the
queue holds no duplicates and no URL already in `visited` (the enqueue
guard checks both), so the dequeued head never triggers the
already-visited skip. -/
theorem claim_C9 :
    ∀ (net : Net) (domain start : String) (n : Nat),
      (runSteps net domain n (initState start)).queue.Nodup ∧
      (∀ u ∈ (runSteps net domain n (initState start)).queue,
          u ∉ (runSteps net domain n (initState start)).visited) ∧
      (∀ (u : String) (rest : List String),
          (runSteps net domain n (initState start)).queue = u :: rest →
          (runSteps net domain n (initState start)).visited.contains u = false) := by
  intro net domain start n
  have h := runSteps_queueInv net domain n (initState start)
    (initState_queueInv start)
  refine ⟨h.1, h.2, ?_⟩
  intro u rest hq
  exact (contains_false_iff _ u).2 (h.2 u (hq ▸ List.mem_cons_self u rest))

theorem claim_C9_witness :
    (runSteps net0 "example.com" 0 (initState "s")).visited.contains "s" =
      false :=
  (claim_C9 net0 "example.com" "s" 0).2.2 "s" [] rfl

/-! ### C2: in-scope accepts only exact or true-subdomain hosts -/

/-- C2: the enqueue guard's host predicate accepts only the exact base
domain or a `"." ++ baseDomain` suffix; `notexample.com` is rejected
against `example.com` (it is even classified external); every URL ever in
the queue other than the start URL passed the predicate, so a URL whose
hostname is `notexample.com` is never enqueued in a crawl of
`example.com`. -/
theorem claim_C2 :
    (∀ h d : String, inScopeHost h d = true →
        h = d ∨ strEnds h ("." ++ d) = true) ∧
    inScopeHost "notexample.com" "example.com" = false ∧
    isExternalOrSocialMediaLink "notexample.com" "example.com" = true ∧
    (∀ (net : Net) (domain start : String) (n : Nat) (u : String),
        u ∈ (runSteps net domain n (initState start)).queue →
        u = start ∨ ∃ h, net.hostOf u = some h ∧ inScopeHost h domain = true) ∧
    (∀ (net : Net) (start : String) (n : Nat) (u : String),
        net.hostOf u = some "notexample.com" →
        u ∈ (runSteps net "example.com" n (initState start)).queue →
        u = start) := by
  refine ⟨?_, by decide, by decide, ?_, ?_⟩
  · intro h d hs
    simp only [inScopeHost, Bool.and_eq_true, Bool.or_eq_true] at hs
    rcases hs.2 with h1 | h1
    · exact Or.inl (by simpa using h1)
    · exact Or.inr h1
  · intro net domain start n u hu
    have hS := runSteps_scopeInv net domain start n (initState start)
      (initState_scopeInv net domain start)
    rcases hS u (Or.inl hu) with he | ⟨h2, hh2, hsc, _⟩
    · exact Or.inl he
    · exact Or.inr ⟨h2, hh2, hsc⟩
  · intro net start n u hh hu
    have hS := runSteps_scopeInv net "example.com" start n (initState start)
      (initState_scopeInv net "example.com" start)
    rcases hS u (Or.inl hu) with he | ⟨h2, hh2, hsc, _⟩
    · exact he
    · exfalso
      rw [hh] at hh2
      injection hh2 with h3
      subst h3
      have : inScopeHost "notexample.com" "example.com" = false := by decide
      rw [this] at hsc
      exact Bool.false_ne_true hsc

theorem claim_C2_witness :
    "sub.example.com" = "example.com" ∨
      strEnds "sub.example.com" ("." ++ "example.com") = true :=
  claim_C2.1 "sub.example.com" "example.com" (by decide)

/-! ### C3: denylisted hosts are never enqueued -/

/-- C3: a URL whose hostname equals or suffix-matches a denylist entry is
classified social (so the link loop skips it before the domain test), and —
the start URL aside — such a URL is never in the queue or the visited set
of any reachable crawl state, regardless of whether the hostname also
matches the base domain. -/
theorem claim_C3 :
    ∀ (net : Net) (domain start : String) (n : Nat) (u hostname : String),
      net.hostOf u = some hostname →
      socialMediaDomains.any
        (fun sd => strEnds hostname sd || hostname == sd) = true →
      u ≠ start →
      isExternalOrSocialMediaLink hostname domain = true ∧
      u ∉ (runSteps net domain n (initState start)).queue ∧
      u ∉ (runSteps net domain n (initState start)).visited := by
  intro net domain start n u hostname hh hdeny hne
  have hS := runSteps_scopeInv net domain start n (initState start)
    (initState_scopeInv net domain start)
  have key : ∀ hu : u ∈ (runSteps net domain n (initState start)).queue ∨
      u ∈ (runSteps net domain n (initState start)).visited, False := by
    intro hu
    rcases hS u hu with he | ⟨h2, hh2, hsc, _⟩
    · exact hne he
    · rw [hh] at hh2
      injection hh2 with h3
      subst h3
      rw [inScopeHost, denylistHit hostname domain hdeny] at hsc
      simp at hsc
  exact ⟨denylistHit hostname domain hdeny,
    fun hu => key (Or.inl hu), fun hu => key (Or.inr hu)⟩

theorem claim_C3_witness :
    isExternalOrSocialMediaLink "twitter.com" "twitter.com" = true ∧
    "x" ∉ (runSteps netTw "twitter.com" 2 (initState "s")).queue ∧
    "x" ∉ (runSteps netTw "twitter.com" 2 (initState "s")).visited :=
  claim_C3 netTw "twitter.com" "s" 2 "x" "twitter.com" rfl (by decide)
    (by decide)

/-! ### C1: a 404 page is skipped, but `pagesVisited` still counts it -/

/-- C1 counterexample: in the two-page crawl of `cexNet` the fetch of
`/b` fails (404), only one page is fetched successfully, the crawl
completes with `success = true` — but `pagesVisited` is `2`, not the `1`
the claim's "excludes it" requires, because the failed URL was added to
`visited` before its fetch. -/
theorem claim_C1_counterexample :
    cexNet.fetchPage "https://example.com/b" = none ∧
    (crawlWebsite cexNet "https://example.com/" 3).map CrawlResult.success =
      some true ∧
    (crawlWebsite cexNet "https://example.com/" 3).map CrawlResult.pagesVisited =
      some 2 ∧
    (crawlWebsite cexNet "https://example.com/" 3).map CrawlResult.pagesVisited ≠
      some 1 ∧
    "https://example.com/b" ∈
      (runSteps cexNet "example.com" 3
        (initState "https://example.com/")).visited := by
  refine ⟨rfl, by decide, by decide, by decide, by decide⟩

/-- C1 (amended): a dequeued page whose fetch fails is skipped — the
iteration changes nothing but moving the URL from the queue into `visited`
(no content, no images, no links, `pagesProcessed` untouched) — and a crawl
that completes still reports `success = true`; but `pagesVisited` is the
size of `visited`, which includes the failed URL. -/
theorem claim_C1 :
    (∀ (net : Net) (domain : String) (st : CrawlState) (u : String)
        (rest : List String),
      st.queue = u :: rest → st.visited.contains u = false →
      net.fetchPage u = none →
      crawlStep net domain st =
        { st with queue := rest, visited := st.visited ++ [u] }) ∧
    (∀ (net : Net) (start d : String) (fuel : Nat) (r : CrawlResult),
      net.hostOf start = some d →
      crawlWebsite net start fuel = some r →
      r.success = true ∧
      r.pagesVisited =
        (runSteps net d fuel (initState start)).visited.length) := by
  constructor
  · intro net domain st u rest hq hv hf
    simp only [crawlStep]
    rw [hq]
    simp only [hv, Bool.false_eq_true, if_false, hf]
  · intro net start d fuel r hh hcw
    simp only [crawlWebsite, hh] at hcw
    split at hcw
    · injection hcw with h
      rw [← h]
      exact ⟨rfl, rfl⟩
    · exact absurd hcw (by simp)

theorem claim_C1_witness :
    (crawlStep net0 "d" ⟨["a"], ["b"], [], 0, 0, []⟩ =
      { CrawlState.mk ["a"] ["b"] [] 0 0 [] with
        queue := [], visited := ["a"] ++ ["b"] }) ∧
    ((CrawlResult.mk true 1 0 "" none).success = true ∧
      (CrawlResult.mk true 1 0 "" none).pagesVisited =
        (runSteps net0 "example.com" 1 (initState "s")).visited.length) :=
  ⟨claim_C1.1 net0 "d" ⟨["a"], ["b"], [], 0, 0, []⟩ "b" [] rfl (by decide) rfl,
   claim_C1.2 net0 "s" "example.com" 1 (CrawlResult.mk true 1 0 "" none)
    rfl (by decide)⟩

/-! ### C6: the three-stage extraction fallback chain -/

theorem length_pos_of_ne_empty (s : String) (h : ¬ s = "") : 0 < s.length := by
  cases s with
  | mk data =>
    cases data with
    | nil => exact absurd rfl h
    | cons c cs => simp [String.length]

theorem textBlock_eq (t : String) (c : Bool) (A : String) :
    (if t.length > 0 then some (if c = true then A else t) else none) =
    (if t = "" then none else if c = true then some A else some t) := by
  by_cases ht : t = ""
  · subst ht; simp
  · have hl : 0 < t.length := length_pos_of_ne_empty t ht
    cases c <;> simp [ht, hl]

theorem paraBlock_eq (t : String) :
    (if t.length > 0 then some t else none) =
    (if t = "" then none else some t) := by
  by_cases ht : t = ""
  · subst ht; simp
  · have hl : 0 < t.length := length_pos_of_ne_empty t ht
    simp [ht, hl]

theorem walkBlock_eq (t : String) :
    (if t.length > 0 && t.length < 500 then some t else none) =
    (if t = "" then none else if 500 ≤ t.length then none else some t) := by
  by_cases ht : t = ""
  · subst ht; simp
  · have hl : 0 < t.length := length_pos_of_ne_empty t ht
    by_cases h5 : t.length < 500
    · simp [ht, hl, h5, Nat.not_le.2 h5]
    · simp [ht, hl, h5, Nat.le_of_not_lt h5]

set_option maxRecDepth 4000 in
/-- C6 (code_bug): stages (a) and (b) of the claimed fallback chain are
what the code executes — whitelist texts with wrapped headings when any
whitelist element matches, else paragraph texts when any paragraph
matches — but whenever stage (c) is reached the program does not perform
the claimed text-node walk: `getAllTextNodes` throws a `ReferenceError` on
the undefined global `document`, and page extraction fails.  At the
failing inputs `exDocWalk` and `exDocLong` the claimed chain yields
`["hello"]` and `["short"]` (the walk skipping a `code` parent's text and
a 500-character block), while the code as executed errors. -/
theorem claim_C6 :
    (∀ body : DNode,
      extractTextBlocksRun body =
        if (collectDesc matchesContentSel body).isEmpty then
          if (collectDesc matchesPara body).isEmpty then
            .error "ReferenceError: document is not defined"
          else .ok (specStageParagraphs body)
        else .ok (specStageWhitelist body)) ∧
    specFallbackChain exDocHeading = ["\n== Title ==\n", "Body text here"] ∧
    extractTextBlocksRun exDocHeading =
      .ok ["\n== Title ==\n", "Body text here"] ∧
    specFallbackChain exDocWalk = ["hello"] ∧
    specFallbackChain exDocLong = ["short"] ∧
    (jsTrim longBlock).length = 500 ∧
    extractCleanContentRun exDocWalk =
      .error "ReferenceError: document is not defined" ∧
    extractCleanContentRun exDocLong =
      .error "ReferenceError: document is not defined" := by
  have hmain : ∀ body : DNode,
      extractTextBlocksRun body =
        if (collectDesc matchesContentSel body).isEmpty then
          if (collectDesc matchesPara body).isEmpty then
            .error "ReferenceError: document is not defined"
          else .ok (specStageParagraphs body)
        else .ok (specStageWhitelist body) := by
    intro body
    simp only [extractTextBlocksRun, specStageWhitelist, specStageParagraphs]
    cases hA : collectDesc matchesContentSel body with
    | cons x xs =>
      simp only [hA, List.length_cons, List.isEmpty_cons, Bool.false_eq_true,
        if_false, gt_iff_lt, Nat.succ_pos, if_true]
      exact congrArg Except.ok (List.filterMap_congr fun el _ =>
        textBlock_eq (jsTrim (domText el)) (isHeadingTagName (tagNameOf el)) _)
    | nil =>
      simp only [hA, List.length_nil, List.isEmpty_nil, if_true, gt_iff_lt,
        Nat.lt_irrefl, if_false]
      cases hB : collectDesc matchesPara body with
      | cons y ys =>
        simp only [hB, List.length_cons, List.isEmpty_cons, Bool.false_eq_true,
          if_false, gt_iff_lt, Nat.succ_pos, if_true]
        exact congrArg Except.ok
          (List.filterMap_congr fun el _ => paraBlock_eq (jsTrim (domText el)))
      | nil =>
        simp only [hB, List.length_nil, List.isEmpty_nil, if_true, gt_iff_lt,
          Nat.lt_irrefl, if_false, getAllTextNodes]
  exact ⟨hmain, by decide, rfl, by decide, by decide, by decide, rfl, rfl⟩

end WebCrawler
